import Mathlib

/-!
Verification of the beehive repository's in-memory transactional state
(src/bh/inmem.go), the local bee command/message handling (the unnamed bee
source file), and hive.ReplyTo (src/hive.go).

Go maps are modelled as association lists; map iteration visits the list in
order (one admissible order of Go's unspecified map iteration).  Go errors
are modelled as `Except String` or `Option String` values carrying the
source's message strings.
-/

namespace BH

abbrev Key := String
abbrev Value := String

/-- Association list lookup: first entry with the given key. -/
def alistGet {α β : Type} [DecidableEq α] : List (α × β) → α → Option β
  | [], _ => none
  | p :: rest, k => if p.1 = k then some p.2 else alistGet rest k

/-- Association list update (Go `m[k] = v`): overwrite in place or append. -/
def alistPut {α β : Type} [DecidableEq α] : List (α × β) → α → β → List (α × β)
  | [], k, v => [(k, v)]
  | p :: rest, k, v => if p.1 = k then (k, v) :: rest else p :: alistPut rest k v

/-- Association list removal (Go `delete(m, k)`): drops every entry for `k`. -/
def alistDel {α β : Type} [DecidableEq α] : List (α × β) → α → List (α × β)
  | [], _ => []
  | p :: rest, k => if p.1 = k then alistDel rest k else p :: alistDel rest k

/-- The Go `TxOpType` values used by inmem.go: `Put` and `Del`. -/
inductive OpT : Type
  | Put
  | Del
deriving DecidableEq, Repr

/-- Go `StateOp` as used by inmem.go: op type, dict name, key, value
(`V` is the zero value for `Del` ops). -/
structure StateOp where
  T : OpT
  D : String
  K : Key
  V : Value
deriving DecidableEq, Repr

/-- Modelled from the spec: the Go zero value of `StateOp` that
`make([]StateOp, l)` fills in (the `StateOp` type itself is declared outside
src/).  String fields are empty; the zero of the op-type integer is
represented here as `Put` (no theorem below depends on that choice: the
counterexamples use the `D` field, which is unambiguously empty). -/
def zeroStateOp : StateOp := ⟨OpT.Put, "", "", ""⟩

/-- Contents of one `inMemDict` (Go `map[Key]Value`). -/
abbrev DictMap := List (Key × Value)

/-- Contents of one `inMemStagedDict.ops` (Go `map[Key]StateOp`). -/
abbrev Ops := List (Key × StateOp)

/-- Contents of `inMemoryTx.stage` (Go `map[DictName]*inMemStagedDict`),
keyed by dict name; the staged dict's underlying-dict pointer is represented
by the name, under which the underlying dict lives in the state. -/
abbrev Stage := List (String × Ops)

/-- The dict registered under `n`, or the empty dict: observable contents of
`Dicts[n]` (a missing dict and an empty dict have the same Get behavior). -/
def dictOf (ds : List (String × DictMap)) (n : String) : DictMap :=
  (alistGet ds n).getD []

/-- Go `inMemDict.Get`. -/
def inMemDict.Get (d : DictMap) (k : Key) : Except String Value :=
  match alistGet d k with
  | some v => Except.ok v
  | none => Except.error ("Key does not exist.")

/-- Go `inMemDict.Put`. -/
def inMemDict.Put (d : DictMap) (k : Key) (v : Value) : DictMap :=
  alistPut d k v

/-- Go `inMemDict.Del`. -/
def inMemDict.Del (d : DictMap) (k : Key) : DictMap :=
  alistDel d k

/-- Go `inMemStagedDict.Put`: stages a `Put` op keyed by `k`
(the staged dict belongs to dict `dn`). -/
def inMemStagedDict.Put (ops : Ops) (dn : String) (k : Key) (v : Value) : Ops :=
  alistPut ops k ⟨OpT.Put, dn, k, v⟩

/-- Go `inMemStagedDict.Del`: stages a `Del` op keyed by `k`
(`V` left at its zero value). -/
def inMemStagedDict.Del (ops : Ops) (dn : String) (k : Key) : Ops :=
  alistPut ops k ⟨OpT.Del, dn, k, ""⟩

/-- Go `inMemStagedDict.Get`: staged op wins (`Put` yields the staged value,
`Del` yields a not-found error), otherwise the underlying dict is consulted. -/
def inMemStagedDict.Get (ops : Ops) (d : DictMap) (k : Key) : Except String Value :=
  match alistGet ops k with
  | some op =>
    match op.T with
    | OpT.Put => Except.ok op.V
    | OpT.Del => Except.error ("No such key")
  | none => inMemDict.Get d k

/-- Go `inMemStagedDict.ForEach`, as the list of (key, value) pairs passed to
the callback: it ranges over the *underlying* dict, replacing entries with a
staged `Put` by `(op.K, op.V)` and skipping entries with a staged `Del`. -/
def inMemStagedDict.forEachList (ops : Ops) (d : DictMap) : List (Key × Value) :=
  d.filterMap (fun kv =>
    match alistGet ops kv.1 with
    | some op =>
      match op.T with
      | OpT.Put => some (op.K, op.V)
      | OpT.Del => none
    | none => some kv)

/-- Go `inMemoryState`: the dicts plus the open transaction, if any
(`tx = some σ` models `s.tx != nil` with stage `σ`). -/
structure inMemoryState where
  Name : String
  Dicts : List (String × DictMap)
  tx : Option Stage
deriving DecidableEq, Repr

/-- Go `inMemoryState.BeginTx`: fails if a transaction is open, otherwise
installs a fresh transaction with an empty stage. -/
def inMemoryState.BeginTx (s : inMemoryState) : Except String inMemoryState :=
  match s.tx with
  | some _ => Except.error ("Transaction is already started")
  | none => Except.ok { s with tx := some [] }

/-- Go `inMemoryState.Tx`: `nil` without a transaction; otherwise
`make([]StateOp, l)` (that is, `l` zero-valued entries) followed by appending
every staged op. -/
def inMemoryState.Tx (s : inMemoryState) : Option (List StateOp) :=
  match s.tx with
  | none => none
  | some σ =>
    let l := (σ.map (fun d => d.2.length)).sum
    some (List.replicate l zeroStateOp ++ (σ.map (fun d => d.2.map Prod.snd)).flatten)

/-- One step of Go `inMemoryTx.Commit`'s inner loop: apply a staged op to the
underlying dict (`Put` → `d.dict.Put(o.K, o.V)`, `Del` → `d.dict.Del(o.K)`). -/
def applyStateOp (d : DictMap) (o : StateOp) : DictMap :=
  match o.T with
  | OpT.Put => inMemDict.Put d o.K o.V
  | OpT.Del => inMemDict.Del d o.K

/-- Apply a list of staged ops to a dict, in list order. -/
def applyOps (d : DictMap) (l : List StateOp) : DictMap :=
  l.foldl applyStateOp d

/-- Go `inMemoryTx.Commit`: for every staged dict, apply its ops to the
underlying dict it was opened for.  The stage is *not* cleared. -/
def inMemoryTx.Commit (ds : List (String × DictMap)) (σ : Stage) :
    List (String × DictMap) :=
  σ.foldl (fun acc p => alistPut acc p.1 (applyOps (dictOf acc p.1) (p.2.map Prod.snd))) ds

/-- Go `inMemoryState.CommitTx`: errors without a transaction; otherwise runs
`Commit` on the underlying dicts.  Note `s.tx` is left in place (the source
never sets it back to nil). -/
def inMemoryState.CommitTx (s : inMemoryState) : Except String inMemoryState :=
  match s.tx with
  | none => Except.error ("No active transaction")
  | some σ => Except.ok { s with Dicts := inMemoryTx.Commit s.Dicts σ }

/-- Go `inMemoryState.AbortTx`: errors without a transaction; otherwise calls
`inMemoryTx.Abort`, which does nothing (the stage and `s.tx` survive). -/
def inMemoryState.AbortTx (s : inMemoryState) : Except String inMemoryState :=
  match s.tx with
  | none => Except.error ("No active transaction")
  | some _ => Except.ok s

/-- Go `inMemoryState.inMemDict`: look up the named dict, creating an empty
one in `Dicts` on first access; returns the state and the dict contents. -/
def inMemoryState.ensureDict (s : inMemoryState) (n : String) :
    inMemoryState × DictMap :=
  match alistGet s.Dicts n with
  | some d => (s, d)
  | none => ({ s with Dicts := alistPut s.Dicts n [] }, [])

/-- Go `s.Dict(n).Get(k)`.  Outside a transaction this is the direct dict
view; inside one, `inMemoryTx.Dict` first registers a *fresh* staged dict
(empty ops) under `n` in the stage, so the staged `Get` falls through to the
underlying dict. -/
def inMemoryState.dictGet (s : inMemoryState) (n : String) (k : Key) :
    inMemoryState × Except String Value :=
  match s.tx with
  | none =>
    let p := s.ensureDict n
    (p.1, inMemDict.Get p.2 k)
  | some σ =>
    let p := s.ensureDict n
    ({ p.1 with tx := some (alistPut σ n []) }, inMemStagedDict.Get [] p.2 k)

/-- A handler-side state operation performed as `s.Dict(n).Put(...)` or
`s.Dict(n).Del(...)` (one `Dict` call per operation). -/
inductive StAction : Type
  | aput (n : String) (k : Key) (v : Value)
  | adel (n : String) (k : Key)
deriving DecidableEq, Repr

/-- One `StAction` against the state.  Outside a transaction the op applies
directly to the underlying dict.  Inside one, `inMemoryTx.Dict` installs a
fresh staged dict for `n` and the op is staged into it. -/
def inMemoryState.stepSt (s : inMemoryState) (a : StAction) : inMemoryState :=
  match a with
  | StAction.aput n k v =>
    match s.tx with
    | none =>
      let p := s.ensureDict n
      { p.1 with Dicts := alistPut p.1.Dicts n (inMemDict.Put p.2 k v) }
    | some σ =>
      let p := s.ensureDict n
      { p.1 with tx := some (alistPut (alistPut σ n []) n (inMemStagedDict.Put [] n k v)) }
  | StAction.adel n k =>
    match s.tx with
    | none =>
      let p := s.ensureDict n
      { p.1 with Dicts := alistPut p.1.Dicts n (inMemDict.Del p.2 k) }
    | some σ =>
      let p := s.ensureDict n
      { p.1 with tx := some (alistPut (alistPut σ n []) n (inMemStagedDict.Del [] n k)) }

/-- Run a sequence of handler-side state operations. -/
def runActions (s : inMemoryState) (acts : List StAction) : inMemoryState :=
  acts.foldl inMemoryState.stepSt s

/-- Spec-side description (for the amended claim C1) of a single key after
commit: the staged op for `(n, k)` decides the value (`Put` → the staged
value, `Del` → absent); a key without a staged op keeps its pre-commit
underlying value. -/
def commitLookupSpec (σ : Stage) (ds : List (String × DictMap)) (n : String)
    (k : Key) : Option Value :=
  match alistGet σ n with
  | some ops =>
    match alistGet ops k with
    | some op =>
      match op.T with
      | OpT.Put => some op.V
      | OpT.Del => none
    | none => alistGet (dictOf ds n) k
  | none => alistGet (dictOf ds n) k

/-- A Put/Del call sequence against one staged-dict handle
(`d := s.Dict(n)` held once, then `d.Put`/`d.Del` repeatedly). -/
inductive HAct : Type
  | hput (k : Key) (v : Value)
  | hdel (k : Key)
deriving DecidableEq, Repr

/-- The key an `HAct` touches. -/
def HAct.key : HAct → Key
  | HAct.hput k _ => k
  | HAct.hdel k => k

/-- The `StateOp` an `HAct` stages for dict `dn`. -/
def HAct.toOp (dn : String) : HAct → StateOp
  | HAct.hput k v => ⟨OpT.Put, dn, k, v⟩
  | HAct.hdel k => ⟨OpT.Del, dn, k, ""⟩

/-- One staged-dict handle call applied to the handle's `ops` map. -/
def stepHandle (dn : String) (ops : Ops) (a : HAct) : Ops :=
  match a with
  | HAct.hput k v => inMemStagedDict.Put ops dn k v
  | HAct.hdel k => inMemStagedDict.Del ops dn k

/-- The `ops` map of a staged-dict handle for dict `dn` after running the
given call sequence, starting from the fresh (empty) handle. -/
def stagedFold (dn : String) (acts : List HAct) : Ops :=
  acts.foldl (stepHandle dn) []

/-- The most recent call in the sequence that touched key `k`. -/
def lastActOn : List HAct → Key → Option HAct
  | [], _ => none
  | a :: rest, k =>
    match lastActOn rest k with
    | some b => some b
    | none => if a.key = k then some a else none

/-- Go `BeeID` (bee source file). -/
structure BeeID where
  HiveID : String
  AppName : String
  ID : Nat
  Detached : Bool
deriving DecidableEq, Repr

/-- Go `BeeColony`: the master bee and its slaves. -/
structure BeeColony where
  Master : BeeID
  Slaves : List BeeID
deriving DecidableEq, Repr

/-- Go `BeeColony.AddSlave`: scans `Slaves` for a duplicate; on a duplicate
returns false and leaves the colony unchanged, otherwise appends. -/
def BeeColony.AddSlave (c : BeeColony) (id : BeeID) : BeeColony × Bool :=
  if c.Slaves.any (fun s => s = id) then (c, false)
  else ({ c with Slaves := c.Slaves ++ [id] }, true)

/-- Remove the first occurrence of `id` (Go
`append(c.Slaves[:i], c.Slaves[i+1:]...)` at the first matching index). -/
def removeFirst : List BeeID → BeeID → List BeeID
  | [], _ => []
  | s :: rest, id => if s = id then rest else s :: removeFirst rest id

/-- Go `BeeColony.DelSlave`: removes the first occurrence of `id`, returning
false (colony unchanged) if `id` is not a slave. -/
def BeeColony.DelSlave (c : BeeColony) (id : BeeID) : BeeColony × Bool :=
  if c.Slaves.any (fun s => s = id) then
    ({ c with Slaves := removeFirst c.Slaves id }, true)
  else (c, false)

/-- Go `TxStatus` (declared outside src/): modelled from the spec as
{Open, Committed, Aborted}; the bee code uses the `TxCommitted` constant. -/
inductive TxStatus : Type
  | TxOpen
  | TxCommitted
  | TxAborted
deriving DecidableEq, Repr

/-- Go `Tx` (declared outside src/): modelled from the spec as a sequence
number, staged ops, buffered outgoing message payloads and a status. -/
structure Tx where
  Seq : Nat
  Ops : List StateOp
  Msgs : List Value
  Status : TxStatus
deriving DecidableEq, Repr

/-- Outcome of handling one control command: either a `CmdResult` reply was
sent on the reply channel (ok or an error), or the handler panicked before
replying (a failed type assertion crashes the bee's goroutine). -/
inductive CmdOutcome : Type
  | reply (r : Except String Unit)
  | panicked (m : String)
deriving Repr

/-- Go `localBee.handleCmd`, `commitTxCmd` branch, as the loop over `txBuf`:
`tx` ranges *by value* over the buffer, so `tx.Status = TxCommitted` writes a
copy and the buffer is untouched; a match replies success, otherwise a
not-found error is sent. -/
def localBee.commitTxLoop : List Tx → Nat → Bool
  | [], _ => false
  | tx :: rest, seq =>
    if seq = tx.Seq then
      true
    else localBee.commitTxLoop rest seq

/-- Go `localBee.handleCmd` on `CommitTx{seq}`: returns the buffer after
handling (unchanged: the loop mutates a copy of the element) and the reply. -/
def localBee.handleCommitTxCmd (txBuf : List Tx) (seq : Nat) :
    List Tx × Except String Unit :=
  if localBee.commitTxLoop txBuf seq then
    (txBuf, Except.ok ())
  else
    (txBuf, Except.error ("Transaction not found."))

/-- Go `localBee.handleCmd` on `AddSlave{slaveID}`: on success replies ok; on
a duplicate the error message evaluates `cmd.CmdData.(BeeID)` although
`CmdData` holds an `addSlaveCmdData`, so the type assertion panics before any
reply is sent. -/
def localBee.handleAddSlaveCmd (c : BeeColony) (slaveID : BeeID) :
    BeeColony × CmdOutcome :=
  let p := c.AddSlave slaveID
  if p.2 then (p.1, CmdOutcome.reply (Except.ok ()))
  else (p.1, CmdOutcome.panicked ("interface conversion: CmdData is addSlaveCmdData, not BeeID"))

/-- Go `localBee.handleCmd` on `DelSlave{slaveID}`: on success replies ok; on
an unknown slave the error message evaluates `cmd.CmdData.(BeeID)` although
`CmdData` holds a `delSlaveCmdData`, so the type assertion panics before any
reply is sent. -/
def localBee.handleDelSlaveCmd (c : BeeColony) (slaveID : BeeID) :
    BeeColony × CmdOutcome :=
  let p := c.DelSlave slaveID
  if p.2 then (p.1, CmdOutcome.reply (Except.ok ()))
  else (p.1, CmdOutcome.panicked ("interface conversion: CmdData is delSlaveCmdData, not BeeID"))

/-- Go `localBee.replicateTx` loop from index `i`: send `BufferTx` to each
slave; a send failure is logged, and returned only when it hits index 0. -/
def localBee.replicateTxAux (send : BeeID → Option String) :
    List BeeID → Nat → Option String
  | [], _ => none
  | s :: rest, i =>
    match send s with
    | some e => if i = 0 then some e else localBee.replicateTxAux send rest (i + 1)
    | none => localBee.replicateTxAux send rest (i + 1)

/-- Go `localBee.replicateTx`: `send` models `NewProxy(s.HiveID).SendCmd` for
the `BufferTx` command (`some e` is a send failure). -/
def localBee.replicateTx (slaves : List BeeID) (send : BeeID → Option String) :
    Option String :=
  localBee.replicateTxAux send slaves 0

/-- How the handler's `Rcv` invocation ends: normal return of nil, a non-nil
error, or a panic. -/
inductive RcvOutcome : Type
  | ok
  | err (e : String)
  | panicked (e : String)
deriving DecidableEq, Repr

/-- Transaction calls `localBee.handleMsg` makes on the bee's state. -/
inductive TxEvent : Type
  | beginTx
  | commitTx
  | abortTx
deriving DecidableEq, Repr

/-- Go ignores the error results of `ctx.BeginTx` / `ctx.CommitTx` /
`ctx.AbortTx` inside `handleMsg`: keep the new state on success, the old one
on error. -/
def exceptState (s : inMemoryState) (r : Except String inMemoryState) :
    inMemoryState :=
  match r with
  | Except.ok t => t
  | Except.error _ => s

/-- Go `localBee.handleMsg` over the bee's state (modelled from the spec:
`rcvContext`'s BeginTx/CommitTx/AbortTx delegate to the bee's `State`, here an
`inMemoryState`).  When the app is transactional, `BeginTx` is called; the
handler then performs its staged actions and finishes with `o`.  A returned
error calls `recoverFromError` (which calls `AbortTx`) and returns; a panic
is caught by the deferred `recover`, which also calls `recoverFromError`;
only a normal return reaches `CommitTx`.  Returns the final state and the
list of transaction calls made. -/
def localBee.handleMsgRun (transactional : Bool) (s : inMemoryState)
    (acts : List StAction) (o : RcvOutcome) : inMemoryState × List TxEvent :=
  let s1 := if transactional then exceptState s s.BeginTx else s
  let ev1 := if transactional then [TxEvent.beginTx] else ([] : List TxEvent)
  let s2 := runActions s1 acts
  match o with
  | RcvOutcome.ok => (exceptState s2 s2.CommitTx, ev1 ++ [TxEvent.commitTx])
  | RcvOutcome.err _ => (exceptState s2 s2.AbortTx, ev1 ++ [TxEvent.abortTx])
  | RcvOutcome.panicked _ => (exceptState s2 s2.AbortTx, ev1 ++ [TxEvent.abortTx])

/-- Go `msg` (hive.go era: actor ids are `uint64`); only the fields `ReplyTo`
reads are modelled, with the payload as an opaque `Value`. -/
structure msg where
  MsgData : Value
  MsgFrom : Nat
  MsgTo : Nat
deriving DecidableEq, Repr

/-- Go `msg.From`. -/
def msg.From (m : msg) : Nat := m.MsgFrom

/-- Modelled from the spec: `msg.NoReply` is not under src/; spec section 3
states "NoReply iff From = zero". -/
def msg.NoReply (m : msg) : Bool := m.MsgFrom == 0

/-- Modelled from the spec: `newMsgFromData` is not under src/; it builds a
message with the given payload, source and destination (as used by
`SendToBee` and `ReplyTo`). -/
def newMsgFromData (d : Value) (f : Nat) (t : Nat) : msg := ⟨d, f, t⟩

/-- Go `hive.ReplyTo`: returns the emitted messages (via `emitMsg`) and the
error result.  A `NoReply` message yields an error and no emission; otherwise
exactly one message is emitted, addressed to `m.From()` with source 0. -/
def hive.ReplyTo (m : msg) (replyData : Value) : List msg × Option String :=
  if m.NoReply then ([], some ("Cannot reply to this message."))
  else ([newMsgFromData replyData 0 m.From], none)

lemma alistGet_put_self {α β : Type} [DecidableEq α] (l : List (α × β)) (k : α)
    (v : β) : alistGet (alistPut l k v) k = some v := by
  induction l with
  | nil => simp [alistGet, alistPut]
  | cons p rest ih =>
    by_cases h : p.1 = k
    · simp [alistPut, h, alistGet]
    · simp [alistPut, h, alistGet, ih]

lemma alistGet_put_ne {α β : Type} [DecidableEq α] (l : List (α × β)) {k k' : α}
    (v : β) (h : k' ≠ k) : alistGet (alistPut l k v) k' = alistGet l k' := by
  have hk : ¬ (k = k') := fun hh => h hh.symm
  induction l with
  | nil => simp [alistGet, alistPut, hk]
  | cons p rest ih =>
    by_cases hp : p.1 = k
    · simp [alistPut, hp, alistGet, hk]
    · simp [alistPut, hp, alistGet, ih]

lemma alistGet_del_self {α β : Type} [DecidableEq α] (l : List (α × β)) (k : α) :
    alistGet (alistDel l k) k = none := by
  induction l with
  | nil => simp [alistGet, alistDel]
  | cons p rest ih =>
    by_cases h : p.1 = k
    · simp [alistDel, h, ih]
    · simp [alistDel, h, alistGet, ih]

lemma alistGet_del_ne {α β : Type} [DecidableEq α] (l : List (α × β)) {k k' : α}
    (h : k' ≠ k) : alistGet (alistDel l k) k' = alistGet l k' := by
  induction l with
  | nil => simp [alistGet, alistDel]
  | cons p rest ih =>
    by_cases hp : p.1 = k
    · have hk : ¬ (k = k') := fun hh => h hh.symm
      simp [alistDel, hp, alistGet, hk, ih]
    · simp [alistDel, hp, alistGet, ih]

lemma alistGet_eq_none_of_not_mem {α β : Type} [DecidableEq α]
    (l : List (α × β)) (k : α) (h : k ∉ l.map Prod.fst) : alistGet l k = none := by
  induction l with
  | nil => simp [alistGet]
  | cons p rest ih =>
    simp only [List.map_cons, List.mem_cons] at h
    push_neg at h
    have hp : ¬ (p.1 = k) := fun hh => h.1 hh.symm
    simp [alistGet, hp, ih h.2]

lemma lastActOn_key : ∀ (acts : List HAct) (k : Key) (a : HAct),
    lastActOn acts k = some a → a.key = k := by
  intro acts
  induction acts with
  | nil => intro k a h; simp [lastActOn] at h
  | cons b rest ih =>
    intro k a h
    rw [lastActOn] at h
    cases hl : lastActOn rest k with
    | some c =>
      rw [hl] at h
      injection h with h
      subst h
      exact ih k c hl
    | none =>
      rw [hl] at h
      by_cases hb : b.key = k
      · rw [if_pos hb] at h
        injection h with h
        subst h
        exact hb
      · rw [if_neg hb] at h
        simp at h

lemma stagedFold_go (dn : String) :
    ∀ (acts : List HAct) (ops : Ops) (k : Key),
    alistGet (acts.foldl (stepHandle dn) ops) k =
      match lastActOn acts k with
      | some a => some (HAct.toOp dn a)
      | none => alistGet ops k := by
  intro acts
  induction acts with
  | nil => intro ops k; simp [lastActOn]
  | cons a rest ih =>
    intro ops k
    rw [List.foldl_cons, ih]
    cases hl : lastActOn rest k with
    | some b => simp [lastActOn, hl]
    | none =>
      simp only [lastActOn, hl]
      cases a with
      | hput k' v =>
        by_cases hk : k' = k
        · subst hk
          simp [stepHandle, inMemStagedDict.Put, alistGet_put_self, HAct.key,
            HAct.toOp]
        · have hne : k ≠ k' := fun hh => hk hh.symm
          simp [stepHandle, inMemStagedDict.Put, alistGet_put_ne _ _ hne,
            HAct.key, hk]
      | hdel k' =>
        by_cases hk : k' = k
        · subst hk
          simp [stepHandle, inMemStagedDict.Del, alistGet_put_self, HAct.key,
            HAct.toOp]
        · have hne : k ≠ k' := fun hh => hk hh.symm
          simp [stepHandle, inMemStagedDict.Del, alistGet_put_ne _ _ hne,
            HAct.key, hk]

lemma stagedFold_lookup (dn : String) (acts : List HAct) (k : Key) :
    alistGet (stagedFold dn acts) k = (lastActOn acts k).map (HAct.toOp dn) := by
  rw [stagedFold, stagedFold_go]
  cases lastActOn acts k <;> simp [alistGet]

lemma stagedFold_WF (dn : String) (acts : List HAct) (k : Key) (op : StateOp)
    (h : alistGet (stagedFold dn acts) k = some op) : op.K = k ∧ op.D = dn := by
  rw [stagedFold_lookup] at h
  cases hl : lastActOn acts k with
  | none =>
    rw [hl] at h
    exact absurd h (by simp)
  | some a =>
    rw [hl] at h
    simp only [Option.map_some'] at h
    injection h with h
    have hk := lastActOn_key acts k a hl
    subst h
    cases a with
    | hput k' v => exact ⟨hk, rfl⟩
    | hdel k' => exact ⟨hk, rfl⟩

example :
    inMemStagedDict.Get
      (stagedFold "d" [HAct.hput "a" "1", HAct.hdel "a", HAct.hput "b" "2"])
      [("a", "0")] "a" = Except.error ("No such key") := rfl

example :
    inMemStagedDict.Get
      (stagedFold "d" [HAct.hput "a" "1", HAct.hdel "a", HAct.hput "a" "3"])
      [] "a" = Except.ok ("3") := rfl

example :
    inMemStagedDict.Get (stagedFold "d" [HAct.hput "b" "2"]) [("a", "0")] "a"
      = Except.ok ("0") := rfl

/-- Claim C7: on a staged dict view inside a transaction, `Get k` returns the
value of the most recent staged `Put` for `k` if the most recent staged op on
`k` is a `Put`, a not-found error if it is a `Del`, and the underlying dict's
`Get` result when no op was staged for `k`. -/
theorem claim_C7 (dn : String) (acts : List HAct) (d : DictMap) (k : Key) :
    inMemStagedDict.Get (stagedFold dn acts) d k =
      match lastActOn acts k with
      | some (HAct.hput _ v) => Except.ok v
      | some (HAct.hdel _) => Except.error ("No such key")
      | none => inMemDict.Get d k := by
  rw [inMemStagedDict.Get, stagedFold_lookup]
  cases hl : lastActOn acts k with
  | none => simp
  | some a => cases a <;> simp [HAct.toOp]

lemma forEach_keys_sublist (ops : Ops) (d : DictMap)
    (hk : ∀ k op, alistGet ops k = some op → op.K = k) :
    ((inMemStagedDict.forEachList ops d).map Prod.fst).Sublist
      (d.map Prod.fst) := by
  induction d with
  | nil => simp [inMemStagedDict.forEachList]
  | cons kv rest ih =>
    rw [inMemStagedDict.forEachList] at ih ⊢
    rw [List.filterMap_cons]
    cases hov : alistGet ops kv.1 with
    | none =>
      simp only [hov, List.map_cons]
      exact ih.cons₂ kv.1
    | some op =>
      cases hT : op.T with
      | Put =>
        simp only [hov, hT, List.map_cons]
        rw [hk kv.1 op hov]
        exact ih.cons₂ kv.1
      | Del =>
        simp only [hov, hT, List.map_cons]
        exact ih.cons kv.1

lemma forEach_lookup (ops : Ops) (d : DictMap) (k : Key)
    (hnd : (d.map Prod.fst).Nodup)
    (hk : ∀ k op, alistGet ops k = some op → op.K = k) :
    alistGet (inMemStagedDict.forEachList ops d) k =
      match alistGet ops k with
      | some op =>
        match op.T with
        | OpT.Put => if (alistGet d k).isSome then some op.V else none
        | OpT.Del => none
      | none => alistGet d k := by
  induction d with
  | nil =>
    cases hov : alistGet ops k with
    | none => simp [inMemStagedDict.forEachList, alistGet]
    | some op =>
      cases hT : op.T <;>
        simp [inMemStagedDict.forEachList, alistGet, hov, hT]
  | cons kv rest ih =>
    rw [List.map_cons, List.nodup_cons] at hnd
    have ihr := ih hnd.2
    rw [inMemStagedDict.forEachList, List.filterMap_cons]
    by_cases hkk : kv.1 = k
    · subst hkk
      cases hov : alistGet ops kv.1 with
      | none =>
        simp only [hov]
        simp [alistGet, hov]
      | some op =>
        cases hT : op.T with
        | Put =>
          simp only [hov, hT]
          have hK := hk kv.1 op hov
          simp [alistGet, hK, hov, hT]
        | Del =>
          simp only [hov, hT]
          rw [← inMemStagedDict.forEachList]
          have hnm : kv.1 ∉ (inMemStagedDict.forEachList ops rest).map Prod.fst :=
            fun hmem => hnd.1 ((forEach_keys_sublist ops rest hk).subset hmem)
          rw [alistGet_eq_none_of_not_mem _ _ hnm]
    · cases hov : alistGet ops kv.1 with
      | none =>
        simp only [hov]
        rw [← inMemStagedDict.forEachList]
        simp [alistGet, hkk, ihr]
      | some op =>
        cases hT : op.T with
        | Put =>
          simp only [hov, hT]
          rw [← inMemStagedDict.forEachList]
          have hK := hk kv.1 op hov
          simp [alistGet, hK, hkk, ihr]
        | Del =>
          simp only [hov, hT]
          rw [← inMemStagedDict.forEachList]
          simp [alistGet, hkk, ihr]

/-- Claim C2 counterexample: with an empty underlying dict and a staged
`Put` of key "a", ForEach visits nothing, although the claim says a key
staged with `Put` but absent from the underlying dict is visited. -/
theorem claim_C2_counterexample :
    inMemStagedDict.forEachList [("a", ⟨OpT.Put, "d", "a", "1"⟩)] [] = [] ∧
    alistGet ([("a", ⟨OpT.Put, "d", "a", "1"⟩)] : Ops) "a"
      = some ⟨OpT.Put, "d", "a", "1"⟩ :=
  ⟨rfl, rfl⟩

/-- Claim C2 (amended): inside a transaction, ForEach visits exactly the
underlying keys minus the staged-deleted keys, each exactly once; a visited
key with a staged `Put` yields the staged value and any other visited key its
underlying value.  A key staged with `Put` that is absent from the underlying
dict is not visited. -/
theorem claim_C2 (dn : String) (acts : List HAct) (d : DictMap)
    (hnd : (d.map Prod.fst).Nodup) :
    ((inMemStagedDict.forEachList (stagedFold dn acts) d).map Prod.fst).Nodup ∧
    ∀ k, alistGet (inMemStagedDict.forEachList (stagedFold dn acts) d) k =
      match alistGet (stagedFold dn acts) k with
      | some op =>
        match op.T with
        | OpT.Put => if (alistGet d k).isSome then some op.V else none
        | OpT.Del => none
      | none => alistGet d k := by
  have hk : ∀ k op, alistGet (stagedFold dn acts) k = some op → op.K = k :=
    fun k op h => (stagedFold_WF dn acts k op h).1
  exact ⟨List.Nodup.sublist (forEach_keys_sublist _ d hk) hnd,
    fun k => forEach_lookup _ d k hnd hk⟩

/-- Claim C2 witness: concrete instance with a staged Put on "a" (absent in
the underlying dict), a staged Del on "b" and an untouched key "c". -/
theorem claim_C2_witness :
    ((inMemStagedDict.forEachList
        (stagedFold "d" [HAct.hput "a" "1", HAct.hdel "b"])
        [("b", "2"), ("c", "3")]).map Prod.fst).Nodup ∧
    alistGet (inMemStagedDict.forEachList
        (stagedFold "d" [HAct.hput "a" "1", HAct.hdel "b"])
        [("b", "2"), ("c", "3")]) "b" = none := by
  obtain ⟨h1, h2⟩ := claim_C2 "d" [HAct.hput "a" "1", HAct.hdel "b"]
      [("b", "2"), ("c", "3")] (by decide)
  exact ⟨h1, (h2 "b").trans rfl⟩

lemma applyOps_lookup : ∀ (ops : Ops) (d : DictMap) (k : Key),
    ((ops.map Prod.fst).Nodup) → (∀ p ∈ ops, (p.2).K = p.1) →
    alistGet (applyOps d (ops.map Prod.snd)) k =
      match alistGet ops k with
      | some op =>
        match op.T with
        | OpT.Put => some op.V
        | OpT.Del => none
      | none => alistGet d k := by
  intro ops
  induction ops with
  | nil => intro d k _ _; simp [applyOps, alistGet]
  | cons p rest ih =>
    intro d k hnd hK
    rw [List.map_cons, List.nodup_cons] at hnd
    have hKp : (p.2).K = p.1 := hK p (List.mem_cons_self p rest)
    have hKr : ∀ q ∈ rest, (q.2).K = q.1 :=
      fun q hq => hK q (List.mem_cons_of_mem p hq)
    rw [List.map_cons, applyOps, List.foldl_cons, ← applyOps,
      ih (applyStateOp d p.2) k hnd.2 hKr]
    by_cases hpk : p.1 = k
    · subst hpk
      have hrest : alistGet rest p.1 = none :=
        alistGet_eq_none_of_not_mem rest p.1 hnd.1
      rw [hrest]
      simp only [alistGet, if_pos rfl]
      cases hT : (p.2).T with
      | Put => simp [applyStateOp, hT, inMemDict.Put, hKp, alistGet_put_self]
      | Del => simp [applyStateOp, hT, inMemDict.Del, hKp, alistGet_del_self]
    · have hne : k ≠ (p.2).K := fun hh => hpk (hKp ▸ hh.symm)
      have hstep : alistGet (applyStateOp d p.2) k = alistGet d k := by
        cases hT : (p.2).T with
        | Put => rw [applyStateOp, hT, inMemDict.Put, alistGet_put_ne _ _ hne]
        | Del => rw [applyStateOp, hT, inMemDict.Del, alistGet_del_ne _ hne]
      rw [hstep]
      simp only [alistGet, if_neg hpk]

lemma dictOf_put_self (ds : List (String × DictMap)) (n : String) (v : DictMap) :
    dictOf (alistPut ds n v) n = v := by
  rw [dictOf, alistGet_put_self]
  rfl

lemma dictOf_put_ne (ds : List (String × DictMap)) {n m : String} (v : DictMap)
    (h : m ≠ n) : dictOf (alistPut ds n v) m = dictOf ds m := by
  rw [dictOf, alistGet_put_ne _ _ h, dictOf]

lemma commit_dictOf_untouched : ∀ (σ : Stage) (ds : List (String × DictMap))
    (n : String), n ∉ σ.map Prod.fst →
    dictOf (inMemoryTx.Commit ds σ) n = dictOf ds n := by
  intro σ
  induction σ with
  | nil => intro ds n _; rfl
  | cons p rest ih =>
    intro ds n h
    rw [List.map_cons, List.mem_cons] at h
    push_neg at h
    rw [inMemoryTx.Commit, List.foldl_cons, ← inMemoryTx.Commit, ih _ _ h.2,
      dictOf_put_ne _ _ h.1]

lemma commitLookupSpec_congr (σ : Stage) (ds ds' : List (String × DictMap))
    (n : String) (k : Key) (h : dictOf ds n = dictOf ds' n) :
    commitLookupSpec σ ds n k = commitLookupSpec σ ds' n k := by
  rw [commitLookupSpec, commitLookupSpec, h]

lemma commit_lookup : ∀ (σ : Stage) (ds : List (String × DictMap)) (n : String)
    (k : Key),
    ((σ.map Prod.fst).Nodup) →
    (∀ p ∈ σ, ((p.2).map Prod.fst).Nodup) →
    (∀ p ∈ σ, ∀ q ∈ p.2, (q.2).K = q.1) →
    alistGet (dictOf (inMemoryTx.Commit ds σ) n) k = commitLookupSpec σ ds n k := by
  intro σ
  induction σ with
  | nil => intro ds n k _ _ _; rw [commitLookupSpec]; rfl
  | cons p rest ih =>
    intro ds n k hnd hops hK
    rw [List.map_cons, List.nodup_cons] at hnd
    have hopr : ∀ q ∈ rest, ((q.2).map Prod.fst).Nodup :=
      fun q hq => hops q (List.mem_cons_of_mem p hq)
    have hKr : ∀ q ∈ rest, ∀ r ∈ q.2, (r.2).K = r.1 :=
      fun q hq => hK q (List.mem_cons_of_mem p hq)
    rw [inMemoryTx.Commit, List.foldl_cons, ← inMemoryTx.Commit]
    by_cases hpn : p.1 = n
    · subst hpn
      rw [commit_dictOf_untouched rest _ p.1 hnd.1, dictOf_put_self,
        applyOps_lookup p.2 _ k (hops p (List.mem_cons_self p rest))
          (hK p (List.mem_cons_self p rest))]
      simp [commitLookupSpec, alistGet]
    · rw [ih _ n k hnd.2 hopr hKr,
        commitLookupSpec_congr rest _ ds n k (dictOf_put_ne _ _ (fun hh => hpn hh.symm))]
      simp [commitLookupSpec, alistGet, hpn]

lemma ensureDict_snd (s : inMemoryState) (n : String) :
    (s.ensureDict n).2 = dictOf s.Dicts n := by
  rw [inMemoryState.ensureDict]
  cases h : alistGet s.Dicts n <;> simp [dictOf, h]

lemma dictGet_snd (s : inMemoryState) (n : String) (k : Key) :
    (s.dictGet n k).2 = inMemDict.Get (dictOf s.Dicts n) k := by
  cases htx : s.tx with
  | none => simp [inMemoryState.dictGet, htx, ensureDict_snd]
  | some σ =>
    simp [inMemoryState.dictGet, htx, ensureDict_snd, inMemStagedDict.Get,
      alistGet]

/-- Claim C1 counterexample: begin a transaction, stage one Put through the
transactional Dict view and commit.  CommitTx applies the op to the
underlying dict but leaves `s.tx` in place, so the claimed subsequent
`BeginTx` does not succeed: it fails with "Transaction is already started". -/
theorem claim_C1_counterexample :
    (inMemoryState.BeginTx ⟨"s", [], none⟩)
      = Except.ok ⟨"s", [], some []⟩ ∧
    (runActions ⟨"s", [], some []⟩ [StAction.aput "d" "k" "v"]).CommitTx
      = Except.ok ⟨"s", [("d", [("k", "v")])],
          some [("d", [("k", ⟨OpT.Put, "d", "k", "v"⟩)])]⟩ ∧
    (inMemoryState.BeginTx ⟨"s", [("d", [("k", "v")])],
        some [("d", [("k", ⟨OpT.Put, "d", "k", "v"⟩)])]⟩)
      = Except.error ("Transaction is already started") :=
  ⟨rfl, rfl, rfl⟩

/-- Claim C1 (amended): with an open transaction, CommitTx succeeds and
applies the staged ops to the underlying dicts — per key, the op the stage
retains (the last one staged, since the stage is keyed by key) decides the
committed value — but the transaction is *not* cleared: `s.tx` keeps the old
stage, so a subsequent BeginTx fails with "Transaction is already started".
Subsequent Dict/Get calls do see only the committed underlying values,
because each `Dict` call inside the still-open transaction installs a fresh
staged dict. -/
theorem claim_C1 (s : inMemoryState) (σ : Stage)
    (htx : s.tx = some σ)
    (hnd : (σ.map Prod.fst).Nodup)
    (hops : ∀ p ∈ σ, ((p.2).map Prod.fst).Nodup)
    (hK : ∀ p ∈ σ, ∀ q ∈ p.2, (q.2).K = q.1) :
    (s.CommitTx.toOption).isSome = true ∧
    ∀ s', s.CommitTx = Except.ok s' →
      (∀ n k, alistGet (dictOf s'.Dicts n) k = commitLookupSpec σ s.Dicts n k) ∧
      s'.tx = some σ ∧
      s'.BeginTx = Except.error ("Transaction is already started") ∧
      (∀ n k, (s'.dictGet n k).2 = inMemDict.Get (dictOf s'.Dicts n) k) := by
  constructor
  · rw [inMemoryState.CommitTx, htx]
    rfl
  · intro s' hok
    rw [inMemoryState.CommitTx, htx] at hok
    injection hok with hok
    subst hok
    refine ⟨fun n k => commit_lookup σ s.Dicts n k hnd hops hK, rfl, ?_, ?_⟩
    · simp [inMemoryState.BeginTx, htx]
    · intro n k
      exact dictGet_snd _ n k

/-- Claim C1 witness: a concrete commit of a stage holding a Put on "k" and
a Del on "x", over a dict containing "j" and "k". -/
theorem claim_C1_witness :
    alistGet (dictOf ([("d", [("j", "0"), ("k", "v")])]) "d") "k"
      = commitLookupSpec
          [("d", [("k", ⟨OpT.Put, "d", "k", "v"⟩), ("x", ⟨OpT.Del, "d", "x", ""⟩)])]
          [("d", [("j", "0"), ("k", "old")])] "d" "k" ∧
    (inMemoryState.BeginTx ⟨"s", [("d", [("j", "0"), ("k", "v")])],
        some [("d", [("k", ⟨OpT.Put, "d", "k", "v"⟩), ("x", ⟨OpT.Del, "d", "x", ""⟩)])]⟩)
      = Except.error ("Transaction is already started") := by
  obtain ⟨h1, h2⟩ := claim_C1
      ⟨"s", [("d", [("j", "0"), ("k", "old")])],
        some [("d", [("k", ⟨OpT.Put, "d", "k", "v"⟩), ("x", ⟨OpT.Del, "d", "x", ""⟩)])]⟩
      [("d", [("k", ⟨OpT.Put, "d", "k", "v"⟩), ("x", ⟨OpT.Del, "d", "x", ""⟩)])]
      rfl (by decide) (by decide) (by decide)
  obtain ⟨ha, hb, hc, hd⟩ := h2
      ⟨"s", [("d", [("j", "0"), ("k", "v")])],
        some [("d", [("k", ⟨OpT.Put, "d", "k", "v"⟩), ("x", ⟨OpT.Del, "d", "x", ""⟩)])]⟩
      rfl
  exact ⟨ha "d" "k", hc⟩

lemma ensureDict_fst_Dicts (s : inMemoryState) (n m : String) :
    dictOf (s.ensureDict n).1.Dicts m = dictOf s.Dicts m := by
  rw [inMemoryState.ensureDict]
  cases h : alistGet s.Dicts n with
  | some d => rfl
  | none =>
    by_cases hm : m = n
    · subst hm
      rw [dictOf_put_self, dictOf, h]
      rfl
    · exact dictOf_put_ne _ _ hm

lemma ensureDict_fst_tx (s : inMemoryState) (n : String) :
    (s.ensureDict n).1.tx = s.tx := by
  rw [inMemoryState.ensureDict]
  cases alistGet s.Dicts n <;> rfl

lemma stepSt_pres (s : inMemoryState) (a : StAction) (h : s.tx.isSome = true) :
    (s.stepSt a).tx.isSome = true ∧
    ∀ m, dictOf (s.stepSt a).Dicts m = dictOf s.Dicts m := by
  cases htx : s.tx with
  | none => rw [htx] at h; simp at h
  | some σ =>
    cases a with
    | aput n k v =>
      rw [inMemoryState.stepSt, htx]
      exact ⟨rfl, fun m => ensureDict_fst_Dicts s n m⟩
    | adel n k =>
      rw [inMemoryState.stepSt, htx]
      exact ⟨rfl, fun m => ensureDict_fst_Dicts s n m⟩

lemma runActions_pres : ∀ (acts : List StAction) (s : inMemoryState),
    s.tx.isSome = true →
    (runActions s acts).tx.isSome = true ∧
    ∀ m, dictOf (runActions s acts).Dicts m = dictOf s.Dicts m := by
  intro acts
  induction acts with
  | nil => intro s h; exact ⟨h, fun m => rfl⟩
  | cons a rest ih =>
    intro s h
    have hstep := stepSt_pres s a h
    have hrest := ih (s.stepSt a) hstep.1
    rw [runActions, List.foldl_cons, ← runActions]
    exact ⟨hrest.1, fun m => (hrest.2 m).trans (hstep.2 m)⟩

lemma abortTx_of_isSome (s : inMemoryState) (h : s.tx.isSome = true) :
    s.AbortTx = Except.ok s := by
  rw [inMemoryState.AbortTx]
  cases hq : s.tx with
  | none => rw [hq] at h; simp at h
  | some τ => rfl

/-- Claim C6: begin a transaction, perform any sequence of staged Put/Del
operations through the transactional Dict views, then AbortTx: the abort
succeeds and no staged operation is visible in the underlying dicts; a
subsequent Get of any key (through Dict) returns exactly what it returned
before the transaction began. -/
theorem claim_C6 (s : inMemoryState) (acts : List StAction) (n : String)
    (k : Key) (htx : s.tx = none) :
    s.BeginTx = Except.ok { s with tx := some [] } ∧
    (runActions { s with tx := some [] } acts).AbortTx
      = Except.ok (runActions { s with tx := some [] } acts) ∧
    ((runActions { s with tx := some [] } acts).dictGet n k).2
      = (s.dictGet n k).2 ∧
    (∀ n' k', alistGet (dictOf (runActions { s with tx := some [] } acts).Dicts n') k'
      = alistGet (dictOf s.Dicts n') k') := by
  have hpres := runActions_pres acts { s with tx := some [] } rfl
  refine ⟨?_, abortTx_of_isSome _ hpres.1, ?_, ?_⟩
  · rw [inMemoryState.BeginTx, htx]
  · rw [dictGet_snd, dictGet_snd, hpres.2 n]
  · intro n' k'
    rw [hpres.2 n']

/-- Claim C6 witness: a staged overwrite and delete of key "a", aborted;
the subsequent Get matches the pre-transaction Get. -/
theorem claim_C6_witness :
    ((runActions ⟨"s", [("d", [("a", "1")])], some []⟩
        [StAction.aput "d" "a" "2", StAction.adel "d" "a"]).dictGet "d" "a").2
      = ((⟨"s", [("d", [("a", "1")])], none⟩ : inMemoryState).dictGet "d" "a").2 ∧
    (runActions ⟨"s", [("d", [("a", "1")])], some []⟩
        [StAction.aput "d" "a" "2", StAction.adel "d" "a"]).AbortTx
      = Except.ok (runActions ⟨"s", [("d", [("a", "1")])], some []⟩
          [StAction.aput "d" "a" "2", StAction.adel "d" "a"]) := by
  obtain ⟨h1, h2, h3, h4⟩ := claim_C6 ⟨"s", [("d", [("a", "1")])], none⟩
      [StAction.aput "d" "a" "2", StAction.adel "d" "a"] "d" "a" rfl
  exact ⟨h3, h2⟩

lemma beginState_pres (s : inMemoryState) :
    (exceptState s s.BeginTx).tx.isSome = true ∧
    ∀ m, dictOf (exceptState s s.BeginTx).Dicts m = dictOf s.Dicts m := by
  cases htx : s.tx with
  | none =>
    rw [inMemoryState.BeginTx, htx]
    exact ⟨rfl, fun m => rfl⟩
  | some σ =>
    rw [inMemoryState.BeginTx, htx]
    exact ⟨by rw [exceptState, htx]; rfl, fun m => rfl⟩

/-- Claim C9: in a transactional bee, handleMsg calls CommitTx exactly when
the handler finishes without error or panic; a handler error or panic leads
to AbortTx (and no CommitTx), and then no staged state change reaches the
underlying dicts. -/
theorem claim_C9 (s : inMemoryState) (acts : List StAction) (o : RcvOutcome) :
    (TxEvent.commitTx ∈ (localBee.handleMsgRun true s acts o).2
      ↔ o = RcvOutcome.ok) ∧
    (TxEvent.abortTx ∈ (localBee.handleMsgRun true s acts o).2
      ↔ ¬ o = RcvOutcome.ok) ∧
    (¬ o = RcvOutcome.ok →
      ∀ n k, alistGet (dictOf (localBee.handleMsgRun true s acts o).1.Dicts n) k
        = alistGet (dictOf s.Dicts n) k) := by
  have hb := beginState_pres s
  have hr := runActions_pres acts (exceptState s s.BeginTx) hb.1
  cases o with
  | ok => simp [localBee.handleMsgRun]
  | err e =>
    refine ⟨by simp [localBee.handleMsgRun], by simp [localBee.handleMsgRun], ?_⟩
    intro _ n k
    rw [localBee.handleMsgRun]
    simp only [if_true]
    rw [abortTx_of_isSome _ hr.1, exceptState]
    rw [hr.2 n, hb.2 n]
  | panicked e =>
    refine ⟨by simp [localBee.handleMsgRun], by simp [localBee.handleMsgRun], ?_⟩
    intro _ n k
    rw [localBee.handleMsgRun]
    simp only [if_true]
    rw [abortTx_of_isSome _ hr.1, exceptState]
    rw [hr.2 n, hb.2 n]

/-- Claim C9 witness: a handler that stages a Put and then returns an error;
the trace aborts and the underlying dict still misses the key. -/
theorem claim_C9_witness :
    (TxEvent.abortTx ∈ (localBee.handleMsgRun true ⟨"s", [], none⟩
        [StAction.aput "d" "k" "v"] (RcvOutcome.err "boom")).2) ∧
    alistGet (dictOf (localBee.handleMsgRun true ⟨"s", [], none⟩
        [StAction.aput "d" "k" "v"] (RcvOutcome.err "boom")).1.Dicts "d") "k"
      = alistGet (dictOf ([] : List (String × DictMap)) "d") "k" := by
  obtain ⟨h1, h2, h3⟩ := claim_C9 ⟨"s", [], none⟩ [StAction.aput "d" "k" "v"]
      (RcvOutcome.err "boom")
  exact ⟨h2.mpr (by simp), h3 (by simp) "d" "k"⟩

lemma replicateTxAux_pos (send : BeeID → Option String) :
    ∀ (l : List BeeID) (i : Nat), i ≠ 0 →
    localBee.replicateTxAux send l i = none := by
  intro l
  induction l with
  | nil => intro i _; rfl
  | cons s rest ih =>
    intro i h
    rw [localBee.replicateTxAux]
    cases hs : send s with
    | some e => simp [h, ih (i + 1) (by simp)]
    | none => exact ih (i + 1) (by simp)

lemma replicateTx_cons (send : BeeID → Option String) (hd : BeeID)
    (tl : List BeeID) : localBee.replicateTx (hd :: tl) send = send hd := by
  rw [localBee.replicateTx, localBee.replicateTxAux]
  cases hs : send hd with
  | some e => rfl
  | none => exact replicateTxAux_pos send tl 1 (by simp)

/-- Claim C3: replicateTx returns an error exactly when sending BufferTx to
the first slave in the Slaves list fails (and it returns that error); a send
failure to any slave other than the first never makes replicateTx return an
error. -/
theorem claim_C3 (slaves : List BeeID) (send : BeeID → Option String)
    (e : String) :
    localBee.replicateTx slaves send = some e ↔
      ∃ hd tl, slaves = hd :: tl ∧ send hd = some e := by
  cases slaves with
  | nil => simp [localBee.replicateTx, localBee.replicateTxAux]
  | cons hd tl =>
    rw [replicateTx_cons]
    constructor
    · intro h
      exact ⟨hd, tl, rfl, h⟩
    · rintro ⟨hd', tl', heq, hsend⟩
      injection heq with h1 h2
      subst h1
      exact hsend

/-- Claim C4 (code bug): with a buffered transaction of Seq 1 not yet
committed, handling CommitTx{1} replies with success, yet the buffer is
unchanged and the transaction's Status is still not Committed — the Go loop
assigns to a copy of the slice element. -/
theorem claim_C4_eval :
    (localBee.handleCommitTxCmd [⟨1, [], [], TxStatus.TxOpen⟩] 1).2
      = Except.ok () ∧
    (localBee.handleCommitTxCmd [⟨1, [], [], TxStatus.TxOpen⟩] 1).1
      = [⟨1, [], [], TxStatus.TxOpen⟩] ∧
    (localBee.handleCommitTxCmd [⟨1, [], [], TxStatus.TxOpen⟩] 1).1.map Tx.Status
      ≠ [TxStatus.TxCommitted] ∧
    (localBee.handleCommitTxCmd [⟨1, [], [], TxStatus.TxOpen⟩] 2).2
      = Except.error ("Transaction not found.") :=
  ⟨rfl, rfl, by decide, rfl⟩

/-- Claim C5 (code bug): with one staged Put, Tx() returns two entries — a
zero-valued leading entry followed by the staged op — instead of exactly the
staged op; the zero entry is not a staged op (its dict name is empty).
Without a transaction, Tx() returns nil. -/
theorem claim_C5_eval :
    inMemoryState.Tx ⟨"s", [("d", [])],
        some [("d", [("k", ⟨OpT.Put, "d", "k", "v"⟩)])]⟩
      = some [zeroStateOp, ⟨OpT.Put, "d", "k", "v"⟩] ∧
    zeroStateOp.D ≠ "d" ∧
    inMemoryState.Tx ⟨"s", [], none⟩ = none :=
  ⟨rfl, by decide, rfl⟩

/-- Claim C8 (code bug): a duplicate AddSlave and an unknown DelSlave leave
the Slaves list unchanged but panic while building the error reply (the
handler asserts `cmd.CmdData.(BeeID)` although CmdData holds the command's
data struct), so no error reply is sent; the non-error cases append/remove
the slave and reply with success. -/
theorem claim_C8_eval :
    (localBee.handleAddSlaveCmd ⟨⟨"h", "a", 1, false⟩, [⟨"h2", "a", 2, false⟩]⟩
        ⟨"h2", "a", 2, false⟩).2
      = CmdOutcome.panicked
          ("interface conversion: CmdData is addSlaveCmdData, not BeeID") ∧
    (localBee.handleAddSlaveCmd ⟨⟨"h", "a", 1, false⟩, [⟨"h2", "a", 2, false⟩]⟩
        ⟨"h2", "a", 2, false⟩).1.Slaves = [⟨"h2", "a", 2, false⟩] ∧
    (localBee.handleDelSlaveCmd ⟨⟨"h", "a", 1, false⟩, []⟩
        ⟨"h2", "a", 2, false⟩).2
      = CmdOutcome.panicked
          ("interface conversion: CmdData is delSlaveCmdData, not BeeID") ∧
    localBee.handleAddSlaveCmd ⟨⟨"h", "a", 1, false⟩, []⟩ ⟨"h2", "a", 2, false⟩
      = (⟨⟨"h", "a", 1, false⟩, [⟨"h2", "a", 2, false⟩]⟩,
          CmdOutcome.reply (Except.ok ())) ∧
    localBee.handleDelSlaveCmd ⟨⟨"h", "a", 1, false⟩, [⟨"h2", "a", 2, false⟩]⟩
        ⟨"h2", "a", 2, false⟩
      = (⟨⟨"h", "a", 1, false⟩, []⟩, CmdOutcome.reply (Except.ok ())) :=
  ⟨rfl, rfl, rfl, rfl, rfl⟩

/-- Claim C10: ReplyTo returns an error and emits nothing when the message's
From is the zero actor id (NoReply); otherwise it emits exactly one message
whose destination is the original sender and whose own From is zero, and
returns nil. -/
theorem claim_C10 (m : msg) (d : Value) :
    (m.MsgFrom = 0 →
      hive.ReplyTo m d = ([], some ("Cannot reply to this message."))) ∧
    (m.MsgFrom ≠ 0 → hive.ReplyTo m d = ([⟨d, 0, m.MsgFrom⟩], none)) := by
  constructor
  · intro h
    simp [hive.ReplyTo, msg.NoReply, h]
  · intro h
    simp [hive.ReplyTo, msg.NoReply, h, newMsgFromData, msg.From]

/-- Claim C10 witness: a zero-From message is rejected; a message from actor
5 gets exactly one reply addressed to 5 with From 0. -/
theorem claim_C10_witness :
    hive.ReplyTo ⟨"q", 0, 7⟩ "r" = ([], some ("Cannot reply to this message.")) ∧
    hive.ReplyTo ⟨"q", 5, 7⟩ "r" = ([⟨"r", 0, 5⟩], none) :=
  ⟨(claim_C10 ⟨"q", 0, 7⟩ "r").1 rfl, (claim_C10 ⟨"q", 5, 7⟩ "r").2 (by decide)⟩

end BH
